import Mathlib

set_option maxRecDepth 100000

/-!
Shallow embedding of the InstaMailer backend (FastAPI + SQLModel, `main.py`,
`email_generator.py`, `mailer.py`, `config.py`).

Datetimes are modelled as proleptic-Gregorian civil dates with a
time-of-day component (`t`, an abstract "ticks within the day" count, all in
UTC; `ensure_aware` in `main.py` normalises naive datetimes to UTC, so the
model keeps a single aware timeline).  `timedelta(days = n)` arithmetic is
day-stepping on the civil form and leaves `t` unchanged, exactly as in
Python's `datetime` library.  Chronological comparison of aware datetimes is
lexicographic on (year, month, day, t).
-/

namespace InstaMailer

/-- A UTC datetime: civil date plus time-of-day ticks. -/
structure DT where
  year : Int
  month : Nat
  day : Nat
  t : Nat
deriving Repr, DecidableEq

/-- Gregorian leap year, as in Python's `calendar.isleap`. -/
def isLeap (y : Int) : Bool :=
  y % 4 == 0 && (y % 100 != 0 || y % 400 == 0)

/-- Number of days in a civil month. -/
def daysInMonth (y : Int) (m : Nat) : Nat :=
  if m = 2 then (if isLeap y then 29 else 28)
  else if m = 4 ∨ m = 6 ∨ m = 9 ∨ m = 11 then 30
  else 31

/-- A civil datetime is valid when the month and day are in range
(Python's `datetime` only constructs valid dates). -/
def ValidDT (x : DT) : Prop :=
  1 ≤ x.month ∧ x.month ≤ 12 ∧ 1 ≤ x.day ∧ x.day ≤ daysInMonth x.year x.month

instance : DecidablePred ValidDT := fun x => by unfold ValidDT; infer_instance

/-- Step one day forward (the successor operation underlying
`+ timedelta(days=1)`). -/
def succDay (x : DT) : DT :=
  if x.day < daysInMonth x.year x.month then ⟨x.year, x.month, x.day + 1, x.t⟩
  else if x.month < 12 then ⟨x.year, x.month + 1, 1, x.t⟩
  else ⟨x.year + 1, 1, 1, x.t⟩

/-- Step one day backward (the predecessor operation underlying
`- timedelta(days=1)`). -/
def predDay (x : DT) : DT :=
  if 1 < x.day then ⟨x.year, x.month, x.day - 1, x.t⟩
  else if 1 < x.month then ⟨x.year, x.month - 1, daysInMonth x.year (x.month - 1), x.t⟩
  else ⟨x.year - 1, 12, 31, x.t⟩

/-- `x + timedelta(days = n)`: the time-of-day is untouched. -/
def addDays : Nat → DT → DT
  | 0, x => x
  | n + 1, x => addDays n (succDay x)

/-- `x - timedelta(days = n)`. -/
def subDays : Nat → DT → DT
  | 0, x => x
  | n + 1, x => subDays n (predDay x)

/-- `x.replace(day = 1)` from `main.py`'s stats loop. -/
def replaceDay1 (x : DT) : DT := ⟨x.year, x.month, 1, x.t⟩

/-- Chronological order on aware datetimes (lexicographic on the civil
components, then time-of-day). -/
def dtLe (a b : DT) : Bool :=
  a.year < b.year ||
  (a.year == b.year && (a.month < b.month ||
    (a.month == b.month && (a.day < b.day ||
      (a.day == b.day && a.t ≤ b.t)))))

/-- `strftime("%b")`: abbreviated month name. -/
def monthAbbrev : Nat → String
  | 1 => "Jan" | 2 => "Feb" | 3 => "Mar" | 4 => "Apr"
  | 5 => "May" | 6 => "Jun" | 7 => "Jul" | 8 => "Aug"
  | 9 => "Sep" | 10 => "Oct" | 11 => "Nov" | 12 => "Dec"
  | _ => ""

/-- The year of the month after `(y, m)`. -/
def nextMonthY (y : Int) (m : Nat) : Int := if m < 12 then y else y + 1

/-- The month number after month `m`. -/
def nextMonthM (m : Nat) : Nat := if m < 12 then m + 1 else 1

/-! ### The monthly-stats window of `get_stats` (`main.py`, lines 181-192) -/

/-- month_start of iteration `i`:
`datetime.now(timezone.utc).replace(day=1) - timedelta(days=30*i)`.
Note the subtraction result is not re-anchored to day 1. -/
def monthStart (now : DT) (i : Nat) : DT := subDays (30 * i) (replaceDay1 now)

/-- month_end computed from month_start:
`month_end = month_start.replace(day=1) + timedelta(days=32)` followed by
`month_end = month_end.replace(day=1) - timedelta(days=1)`. -/
def monthEnd (s : DT) : DT := predDay (replaceDay1 (addDays 32 (replaceDay1 s)))

/-! ### Draft rows and the stats computation (`main.py`) -/

/-- An email draft row.  The SQLModel table itself lives in `models.py`,
which is not among the sources; the fields are those used by `main.py`
and mirrored by its `EmailDraftResponse` model. -/
structure Draft where
  prompt : String
  content : String
  recipient : String
  tone : String
  status : String
  type : String
  created_at : DT
  sent_at : Option DT
  subject : Option String
deriving Repr, DecidableEq

def totalSent (ds : List Draft) : Nat := ds.countP (fun d => d.status == "sent")

def totalDrafts (ds : List Draft) : Nat := ds.countP (fun d => d.status == "draft")

def totalFailed (ds : List Draft) : Nat := ds.countP (fun d => d.status == "failed")

def totalEmails (ds : List Draft) : Nat := ds.length

/-- Python's `round` uses round-half-to-even; the computation is modelled
over exact rationals. -/
def roundHalfEven (q : ℚ) : ℤ :=
  let n := ⌊q⌋
  let r := q - n
  if r < 1/2 then n
  else if 1/2 < r then n + 1
  else if n % 2 = 0 then n else n + 1

/-- Python's `round(q, 1)`. -/
def pyRound1 (q : ℚ) : ℚ := (roundHalfEven (10 * q) : ℚ) / 10

/-- `success_rate = (total_sent / total_emails * 100) if total_emails else 0`. -/
def successRateRaw (ds : List Draft) : ℚ :=
  if totalEmails ds = 0 then 0
  else (totalSent ds : ℚ) / (totalEmails ds : ℚ) * 100

/-- The reported rate, `round(success_rate, 1)`. -/
def successRate (ds : List Draft) : ℚ := pyRound1 (successRateRaw ds)

/-- `recent_activity`: drafts created in the last 7 days
(`ensure_aware(d.created_at) >= week_ago`). -/
def recentActivity (now : DT) (ds : List Draft) : Nat :=
  let weekAgo := subDays 7 now
  ds.countP (fun d => dtLe weekAgo d.created_at)

/-- Key membership in an ordered association list (a Python dict). -/
def hasKey (acc : List (String × Nat)) (t : String) : Bool :=
  match acc with
  | [] => false
  | (k, _) :: rest => if k = t then true else hasKey rest t

/-- Key lookup in an ordered association list. -/
def lookupCount (acc : List (String × Nat)) (t : String) : Option Nat :=
  match acc with
  | [] => none
  | (k, n) :: rest => if k = t then some n else lookupCount rest t

/-- One step of building `Counter(d.tone for d in drafts)`: Python dicts
(and `Counter`) keep first-insertion order of keys; a known key is
incremented in place, a new key is appended. -/
def bump (acc : List (String × Nat)) (t : String) : List (String × Nat) :=
  if hasKey acc t then
    acc.map (fun p => if p.1 = t then (p.1, p.2 + 1) else p)
  else acc ++ [(t, 1)]

/-- The items of `Counter(...)`, in first-encounter order. -/
def counterItems (ts : List String) : List (String × Nat) := ts.foldl bump []

/-- Stable descending insertion by count: inserts after all entries with a
count that is not smaller, matching the stability of Python's `sorted` with
`reverse=True` used by `Counter.most_common()`. -/
def insertDesc (x : String × Nat) : List (String × Nat) → List (String × Nat)
  | [] => [x]
  | y :: ys => if y.2 < x.2 then x :: y :: ys else y :: insertDesc x ys

/-- `Counter.most_common()`: items sorted by descending count, ties keeping
first-encounter order. -/
def mostCommon (l : List (String × Nat)) : List (String × Nat) :=
  l.foldl (fun acc x => insertDesc x acc) []

/-- `popular_tones = dict(tone_counter.most_common())` as an ordered
association list (Python dicts preserve insertion order). -/
def popularTones (ds : List Draft) : List (String × Nat) :=
  mostCommon (counterItems (ds.map (fun d => d.tone)))

/-- The value `t` is first encountered strictly before the first encounter
of `u` when walking the sequence left to right. -/
def firstBefore (t u : String) : List String → Bool
  | [] => false
  | s :: rest =>
      if s = t then true
      else if s = u then false
      else firstBefore t u rest

/-- One entry of `monthly_stats`. -/
structure MonthEntry where
  month : String
  sent : Nat
  drafts : Nat
deriving Repr, DecidableEq

/-- The body of the `for i in range(6)` loop of `get_stats`. -/
def monthEntry (now : DT) (ds : List Draft) (i : Nat) : MonthEntry :=
  let s := monthStart now i
  let e := monthEnd s
  let monthDrafts := ds.filter (fun d => dtLe s d.created_at && dtLe d.created_at e)
  ⟨monthAbbrev s.month,
   monthDrafts.countP (fun d => d.status == "sent"),
   monthDrafts.countP (fun d => d.status == "draft")⟩

/-- `monthly_stats` after the final `reverse()`. -/
def monthlyStats (now : DT) (ds : List Draft) : List MonthEntry :=
  ((List.range 6).map (monthEntry now ds)).reverse

/-- The JSON object returned by `GET /stats`. -/
structure Stats where
  total_sent : Nat
  total_drafts : Nat
  total_failed : Nat
  success_rate : ℚ
  recent_activity : Nat
  popular_tones : List (String × Nat)
  monthly_stats : List MonthEntry
deriving Repr, DecidableEq

def get_stats (now : DT) (ds : List Draft) : Stats :=
  ⟨totalSent ds, totalDrafts ds, totalFailed ds, successRate ds,
   recentActivity now ds, popularTones ds, monthlyStats now ds⟩

/-! ### Python string primitives used by the generator and by `send` -/

/-- The whitespace class of Python's `str.strip` / `str.split` (ASCII part). -/
def pyIsSpace (c : Char) : Bool :=
  c == ' ' || c == '\t' || c == '\n' || c == '\r' || c == '\x0b' || c == '\x0c'

/-- Python's `str.strip()`. -/
def pyStrip (s : String) : String :=
  ⟨((s.data.dropWhile pyIsSpace).reverse.dropWhile pyIsSpace).reverse⟩

/-- Python's `s.split("\n")[0]`: everything before the first newline. -/
def pyFirstLine (s : String) : String :=
  ⟨s.data.takeWhile (fun c => c ≠ '\n')⟩

/-- Python's slicing `s[:n]`. -/
def pyTake (n : Nat) (s : String) : String := ⟨s.data.take n⟩

/-- Python's `len` on strings (code points). -/
def pyLen (s : String) : Nat := s.data.length

/-- Python's `str.lower()` (ASCII part). -/
def pyLower (s : String) : String := ⟨s.data.map Char.toLower⟩

/-- Helper for `str.split()` with no separator: accumulate the current word
(reversed) and split on whitespace runs, dropping empty tokens. -/
def pyWordsAux : List Char → List Char → List String
  | [], acc => if acc.isEmpty then [] else [⟨acc.reverse⟩]
  | c :: cs, acc =>
      if pyIsSpace c then
        if acc.isEmpty then pyWordsAux cs [] else (⟨acc.reverse⟩ : String) :: pyWordsAux cs []
      else pyWordsAux cs (c :: acc)

/-- Python's `prompt.split()`. -/
def pyWords (s : String) : List String := pyWordsAux s.data []

/-! ### The content generator (`email_generator.py`) -/

/-- The result of `generate_email_with_subject`. -/
structure EmailData where
  content : String
  subject : String
deriving Repr, DecidableEq

def fallbackGreeting (tone : String) : String :=
  if pyLower tone == "friendly" || pyLower tone == "casual" then "Hi there,"
  else "Dear Sir/Madam,"

def fallbackClosing (tone : String) : String :=
  if pyLower tone == "friendly" || pyLower tone == "casual" then "Best,\n[Your Name]"
  else "Best regards,\n[Your Name]"

/-- The fallback template `f"{greeting}\n\n{prompt}\n\n{closing}"`. -/
def fallbackContent (prompt tone : String) : String :=
  fallbackGreeting tone ++ "\n\n" ++ prompt ++ "\n\n" ++ fallbackClosing tone

/-- The pure behaviour of `generate_email_content`: the network call is
abstracted by `api : Option String`, the candidate text of the response;
`none` covers the unconfigured-API early return, a raised request error,
and a response with no candidates (all of which return `None`); a returned
text is stripped (`data["candidates"][0]["content"]["text"].strip()`). -/
def generate_email_content (api : Option String) : Option String :=
  api.map pyStrip

/-- The content selected by `generate_email_with_subject`: `if not content`
treats both `None` and the empty string as missing and falls back to the
template. -/
def gewsContent (api : Option String) (prompt tone : String) : String :=
  match generate_email_content api with
  | none => fallbackContent prompt tone
  | some c => if c == "" then fallbackContent prompt tone else c

/-- The body of `generate_email_with_subject`: the subject comes from the
first line of `content.strip()` when shorter than 80 characters, else from
the first 7 words of the prompt. -/
def generate_email_with_subject (api : Option String) (prompt tone : String) :
    EmailData :=
  let content := gewsContent api prompt tone
  let firstLine := pyFirstLine (pyStrip content)
  let subject :=
    if pyLen firstLine < 80 then firstLine
    else String.intercalate " " ((pyWords prompt).take 7)
  ⟨content, subject⟩

/-- Python's `s.startswith(pre)`. -/
def pyStartsWith (s pre : String) : Bool := pre.data.isPrefixOf s.data

/-- Python's `s.endswith(suf)`. -/
def pyEndsWith (s suf : String) : Bool := suf.data.isSuffixOf s.data

/-! ### The HTTP endpoints (`main.py`) -/

/-- A raised `fastapi.HTTPException` (status code and detail). -/
structure HTTPExc where
  code : Nat
  detail : String
deriving Repr, DecidableEq

/-- The draft store, keyed by primary-key id. -/
abbrev Store := List (Nat × Draft)

/-- Primary-key lookup, `session.get(Draft, draft_id)`. -/
def lookupDraft (store : Store) (id : Nat) : Option Draft :=
  match store with
  | [] => none
  | (k, d) :: rest => if k = id then some d else lookupDraft rest id

/-- Replace the row with the given id (the ORM mutation plus `commit`). -/
def setDraft (store : Store) (id : Nat) (d : Draft) : Store :=
  store.map (fun p => if p.1 = id then (p.1, d) else p)

/-- The trailing bare `except Exception` handler of `delete_email` and
`update_draft`.  FastAPI's `HTTPException` is a subclass of `Exception`,
so the 404 raised inside the `try` block is caught here too and replaced
by a 500 with the handler's detail message. -/
def catchAll (detail : String) (r : Except HTTPExc α) : Except HTTPExc α :=
  match r with
  | .ok a => .ok a
  | .error _ => .error ⟨500, detail⟩

/-- Subject passed to `send_email` in the `send` endpoint (line 128):
`subject = draft.subject or draft.content.split("\n")[0][:50] if draft.content else "Email"`,
which Python parses as
`(draft.subject or draft.content.split("\n")[0][:50]) if draft.content else "Email"`;
`draft.subject or x` yields `x` when the subject is `None` or `""`. -/
def dispatchSubject (d : Draft) : String :=
  if d.content == "" then "Email"
  else
    match d.subject with
    | some s => if s == "" then pyTake 50 (pyFirstLine d.content) else s
    | none => pyTake 50 (pyFirstLine d.content)

/-- Result of the `POST /send/{draft_id}` endpoint: the updated store, the
HTTP outcome, and the message handed to `mailer.send_email` (when a draft
was found). -/
instance {α β : Type} [DecidableEq α] [DecidableEq β] :
    DecidableEq (Except α β) := fun a b => by
  cases a <;> cases b <;>
    first
      | (rename_i x y
         exact if h : x = y then isTrue (by rw [h]) else isFalse (by intro hc; cases hc; exact h rfl))
      | (exact isFalse (by intro h; cases h))

structure SendOutcome where
  store : Store
  result : Except HTTPExc String
  dispatched : Option (String × String × String)
deriving Repr, DecidableEq

/-- The `send` endpoint.  `dispatch` abstracts the boolean returned by
`mailer.send_email` (False when SMTP is unconfigured or errors).  Inside
the endpoint, `except HTTPException: raise` re-raises the 404 and the
dispatch-failure 500 unchanged, so both surface with their own detail. -/
def send (dispatch : Bool) (now : DT) (store : Store) (id : Nat) : SendOutcome :=
  match lookupDraft store id with
  | none => ⟨store, .error ⟨404, "Draft not found"⟩, none⟩
  | some d =>
      let subject := dispatchSubject d
      let msg := (d.recipient, subject, d.content)
      if dispatch then
        ⟨setDraft store id { d with status := "sent", sent_at := some now },
         .ok "Email sent successfully", some msg⟩
      else
        ⟨setDraft store id { d with status := "failed" },
         .error ⟨500, "Failed to send email"⟩, some msg⟩

/-- The `try` body of `POST /update_draft/{draft_id}`: 404 when the id is
absent, otherwise replace the content. -/
def update_draft_body (store : Store) (id : Nat) (content : String) :
    Except HTTPExc (Store × String) :=
  match lookupDraft store id with
  | none => .error ⟨404, "Draft not found"⟩
  | some d => .ok (setDraft store id { d with content := content }, "Draft updated")

/-- The whole endpoint: the body wrapped in the bare `except Exception`
handler, which also swallows the 404. -/
def update_draft (store : Store) (id : Nat) (content : String) :
    Except HTTPExc (Store × String) :=
  catchAll "Error updating draft" (update_draft_body store id content)

/-- The `try` body of `DELETE /emails/{draft_id}`. -/
def delete_email_body (store : Store) (id : Nat) :
    Except HTTPExc (Store × String) :=
  match lookupDraft store id with
  | none => .error ⟨404, "Draft not found"⟩
  | some _ => .ok (store.filter (fun p => p.1 ≠ id), "Email deleted successfully")

/-- The whole endpoint, with the bare `except Exception` handler. -/
def delete_email (store : Store) (id : Nat) : Except HTTPExc (Store × String) :=
  catchAll "Error deleting email" (delete_email_body store id)

/-- Modelled from the spec: the SQLModel `Draft` table lives in `models.py`,
which is not among the sources.  Per the spec, a newly generated draft
starts with `status = "draft"`, `sent_at` unset, and `created_at` the
creation instant; the remaining fields are those `generate` passes in. -/
def newDraft (now : DT) (prompt recipient tone ty content : String)
    (subject : Option String) : Draft :=
  { prompt := prompt, content := content, recipient := recipient, tone := tone,
    status := "draft", type := ty, created_at := now, sent_at := none,
    subject := subject }

/-- The `POST /generate` endpoint: generate content+subject, persist a new
draft row, return it. -/
def generate (api : Option String) (now : DT) (store : Store) (newId : Nat)
    (prompt recipient tone ty : String) : Store × Draft :=
  let e := generate_email_with_subject api prompt tone
  let d := newDraft now prompt recipient tone ty e.content (some e.subject)
  (store ++ [(newId, d)], d)

/-! ### Concrete sample data for witnesses and counterexamples -/

/-- A sample stored draft. -/
def exDraft : Draft :=
  { prompt := "p", content := "Hello world\nsecond line", recipient := "r@example.com",
    tone := "friendly", status := "draft", type := "general",
    created_at := ⟨2026, 1, 1, 0⟩, sent_at := none, subject := some "Subj" }

/-- A draft with a given status, tone and creation instant. -/
def exDraftOf (st tone : String) (created : DT) : Draft :=
  { prompt := "", content := "c", recipient := "r", tone := tone, status := st,
    type := "general", created_at := created, sent_at := none, subject := none }

/-- One draft of each status. -/
def exStatusDrafts : List Draft :=
  [exDraftOf "sent" "a" ⟨2026, 1, 1, 0⟩, exDraftOf "draft" "a" ⟨2026, 1, 1, 0⟩,
   exDraftOf "failed" "b" ⟨2026, 1, 1, 0⟩]

/-- Four drafts whose tones are x, y, y, x: both tones occur twice, so
their popular_tones order is decided purely by the tie-break rule. -/
def exTieDrafts : List Draft :=
  [exDraftOf "draft" "x" ⟨2026, 1, 1, 0⟩, exDraftOf "draft" "y" ⟨2026, 1, 1, 0⟩,
   exDraftOf "draft" "y" ⟨2026, 1, 1, 0⟩, exDraftOf "draft" "x" ⟨2026, 1, 1, 0⟩]

/-- Six drafts whose tones are a, b, a, c, a, b (the spec's popular_tones
example). -/
def exToneDrafts : List Draft :=
  [exDraftOf "draft" "a" ⟨2026, 1, 1, 0⟩, exDraftOf "draft" "b" ⟨2026, 1, 1, 0⟩,
   exDraftOf "draft" "a" ⟨2026, 1, 1, 0⟩, exDraftOf "draft" "c" ⟨2026, 1, 1, 0⟩,
   exDraftOf "draft" "a" ⟨2026, 1, 1, 0⟩, exDraftOf "draft" "b" ⟨2026, 1, 1, 0⟩]

/-! ### General lemmas about the calendar model -/

theorem daysInMonth_bounds (y : Int) (m : Nat) :
    28 ≤ daysInMonth y m ∧ daysInMonth y m ≤ 31 := by
  unfold daysInMonth
  split
  · split <;> omega
  · split <;> omega

theorem daysInMonth_twelve (y : Int) : daysInMonth y 12 = 31 := rfl

theorem succDay_valid (x : DT) (h : ValidDT x) : ValidDT (succDay x) := by
  obtain ⟨h1, h2, h3, h4⟩ := h
  unfold succDay ValidDT
  have hb := daysInMonth_bounds x.year x.month
  have hb2 := daysInMonth_bounds x.year (x.month + 1)
  have hy : daysInMonth (x.year + 1) 1 = 31 := rfl
  split
  · dsimp only; omega
  · split <;> dsimp only <;> omega

theorem predDay_valid (x : DT) (h : ValidDT x) : ValidDT (predDay x) := by
  obtain ⟨h1, h2, h3, h4⟩ := h
  unfold predDay ValidDT
  have hb := daysInMonth_bounds x.year x.month
  have hb2 := daysInMonth_bounds x.year (x.month - 1)
  have hy : daysInMonth (x.year - 1) 12 = 31 := rfl
  split
  · dsimp only; omega
  · split <;> dsimp only <;> omega

theorem subDays_valid (n : Nat) (x : DT) (h : ValidDT x) : ValidDT (subDays n x) := by
  induction n generalizing x with
  | zero => exact h
  | succ n ih => exact ih _ (predDay_valid x h)

theorem replaceDay1_valid (x : DT) (h : ValidDT x) : ValidDT (replaceDay1 x) := by
  obtain ⟨h1, h2, h3, h4⟩ := h
  have hb := daysInMonth_bounds x.year x.month
  unfold ValidDT replaceDay1
  dsimp only
  omega

theorem addDays_add (a b : Nat) (x : DT) :
    addDays (a + b) x = addDays b (addDays a x) := by
  induction a generalizing x with
  | zero => simp [addDays]
  | succ a ih =>
      have : a + 1 + b = (a + b) + 1 := by omega
      rw [this]
      show addDays (a + b) (succDay x) = addDays b (addDays (a + 1) x)
      rw [ih (succDay x)]
      rfl

theorem addDays_within (k : Nat) (y : Int) (m d t : Nat)
    (hd : 1 ≤ d) (hk : d + k ≤ daysInMonth y m) :
    addDays k ⟨y, m, d, t⟩ = ⟨y, m, d + k, t⟩ := by
  induction k generalizing d with
  | zero => rfl
  | succ k ih =>
      show addDays k (succDay ⟨y, m, d, t⟩) = _
      have hlt : d < daysInMonth y m := by omega
      have hs : succDay ⟨y, m, d, t⟩ = ⟨y, m, d + 1, t⟩ := by
        unfold succDay; simp [hlt]
      rw [hs, ih (d + 1) (by omega) (by omega)]
      congr 1
      omega

theorem succDay_last (y : Int) (m t : Nat) :
    succDay ⟨y, m, daysInMonth y m, t⟩ = ⟨nextMonthY y m, nextMonthM m, 1, t⟩ := by
  unfold succDay nextMonthY nextMonthM
  simp only [show ¬ (daysInMonth y m < daysInMonth y m) by omega, if_false]
  by_cases h : m < 12 <;> simp [h]

theorem addDays32_first (y : Int) (m t : Nat) :
    addDays 32 ⟨y, m, 1, t⟩ =
      ⟨nextMonthY y m, nextMonthM m, 33 - daysInMonth y m, t⟩ := by
  have hb := daysInMonth_bounds y m
  have hb2 := daysInMonth_bounds (nextMonthY y m) (nextMonthM m)
  have h32 : (32 : Nat) = (daysInMonth y m - 1) + (1 + (32 - daysInMonth y m)) := by omega
  rw [h32, addDays_add]
  rw [addDays_within (daysInMonth y m - 1) y m 1 t (by omega) (by omega)]
  have h1 : 1 + (daysInMonth y m - 1) = daysInMonth y m := by omega
  rw [h1]
  rw [addDays_add 1 (32 - daysInMonth y m)]
  have hsucc : addDays 1 ⟨y, m, daysInMonth y m, t⟩ =
      ⟨nextMonthY y m, nextMonthM m, 1, t⟩ := by
    show addDays 0 (succDay _) = _
    rw [show addDays 0 (succDay ⟨y, m, daysInMonth y m, t⟩) =
        succDay ⟨y, m, daysInMonth y m, t⟩ from rfl]
    exact succDay_last y m t
  rw [hsucc]
  rw [addDays_within (32 - daysInMonth y m) _ _ 1 t (by omega) (by omega)]
  congr 1
  omega

theorem monthStart_valid (now : DT) (i : Nat) (h : ValidDT now) :
    ValidDT (monthStart now i) :=
  subDays_valid _ _ (replaceDay1_valid now h)

/-- The end of the code's window is always the last day of the calendar month
in which the (possibly mid-month) window start falls, with the same
time-of-day as the start. -/
theorem monthEnd_eq (s : DT) (hm1 : 1 ≤ s.month) (hm2 : s.month ≤ 12) :
    monthEnd s = ⟨s.year, s.month, daysInMonth s.year s.month, s.t⟩ := by
  unfold monthEnd
  have h1 : replaceDay1 s = ⟨s.year, s.month, 1, s.t⟩ := rfl
  rw [h1, addDays32_first]
  have h2 : replaceDay1 ⟨nextMonthY s.year s.month, nextMonthM s.month,
      33 - daysInMonth s.year s.month, s.t⟩ =
      ⟨nextMonthY s.year s.month, nextMonthM s.month, 1, s.t⟩ := rfl
  rw [h2]
  unfold predDay nextMonthY nextMonthM
  by_cases h : s.month < 12
  · simp only [h, if_true]
    have hm : ¬ (1 : Nat) < 1 := by omega
    rw [if_neg hm, if_pos (by omega : 1 < s.month + 1)]
    simp only [Nat.add_sub_cancel]
  · have h12 : s.month = 12 := by omega
    simp only [h, if_false]
    rw [if_neg (by omega : ¬ (1 : Nat) < 1), if_neg (by omega : ¬ (1 : Nat) < 1)]
    rw [h12]
    congr 1
    omega

theorem predDay_t (x : DT) : (predDay x).t = x.t := by
  unfold predDay
  split
  · rfl
  · split <;> rfl

theorem subDays_t (n : Nat) (x : DT) : (subDays n x).t = x.t := by
  induction n generalizing x with
  | zero => rfl
  | succ n ih => exact (ih (predDay x)).trans (predDay_t x)

/-! ### Lemmas about the draft store -/

theorem lookupDraft_cons (k : Nat) (e : Draft) (rest : Store) (id : Nat) :
    lookupDraft ((k, e) :: rest) id =
      if k = id then some e else lookupDraft rest id := rfl

theorem setDraft_cons (k : Nat) (e : Draft) (rest : Store) (id : Nat) (d' : Draft) :
    setDraft ((k, e) :: rest) id d' =
      (if k = id then (k, d') else (k, e)) :: setDraft rest id d' := rfl

theorem lookup_setDraft (store : Store) (id : Nat) (d d' : Draft)
    (h : lookupDraft store id = some d) :
    lookupDraft (setDraft store id d') id = some d' := by
  induction store with
  | nil => simp [lookupDraft] at h
  | cons p rest ih =>
      obtain ⟨k, e⟩ := p
      rw [setDraft_cons]
      by_cases hk : k = id
      · rw [if_pos hk, lookupDraft_cons, if_pos hk]
      · rw [if_neg hk, lookupDraft_cons, if_neg hk]
        rw [lookupDraft_cons, if_neg hk] at h
        exact ih h

theorem lookup_setDraft_ne (store : Store) (id j : Nat) (d' : Draft)
    (h : j ≠ id) :
    lookupDraft (setDraft store id d') j = lookupDraft store j := by
  induction store with
  | nil => rfl
  | cons p rest ih =>
      obtain ⟨k, e⟩ := p
      rw [setDraft_cons]
      by_cases hk : k = id
      · have hkj : ¬ k = j := fun hc => h (hc ▸ hk)
        rw [if_pos hk, lookupDraft_cons, lookupDraft_cons, if_neg hkj, if_neg hkj]
        exact ih
      · rw [if_neg hk, lookupDraft_cons, lookupDraft_cons]
        by_cases hj : k = j
        · rw [if_pos hj, if_pos hj]
        · rw [if_neg hj, if_neg hj]
          exact ih

theorem lookup_setDraft_status (store : Store) (id j : Nat) (d d' : Draft)
    (h : lookupDraft store id = some d) (hs : d'.status = d.status) :
    (lookupDraft (setDraft store id d') j).map (fun e => e.status) =
      (lookupDraft store j).map (fun e => e.status) := by
  by_cases hj : j = id
  · subst hj
    rw [lookup_setDraft store j d d' h, h]
    simp [hs]
  · rw [lookup_setDraft_ne store id j d' hj]

/-! ### Claim C2 -/

/-- C2: a request with a missing draft id does NOT surface as a 404 from
update_draft and delete_email: the 404 their try-bodies raise is caught by
the trailing bare except-Exception handler (FastAPI's HTTPException derives
from Exception) and is replaced by a 500; only the send endpoint, which
re-raises HTTPException before its catch-all, surfaces the 404.  In
particular POST /update_draft/1 on an empty store returns 500, not 404. -/
theorem c2_update_delete_404_swallowed :
    update_draft_body [] 1 "x" = .error ⟨404, "Draft not found"⟩ ∧
    update_draft [] 1 "x" = .error ⟨500, "Error updating draft"⟩ ∧
    delete_email_body [] 1 = .error ⟨404, "Draft not found"⟩ ∧
    delete_email [] 1 = .error ⟨500, "Error deleting email"⟩ ∧
    (send true ⟨2026, 1, 1, 0⟩ [] 1).result = .error ⟨404, "Draft not found"⟩ := by
  refine ⟨rfl, rfl, rfl, rfl, rfl⟩

/-! ### Claim C10 -/

/-- C10: in the send endpoint, an empty (falsy) stored content forces the
dispatch subject "Email" even when a non-empty subject is stored; with
non-empty content the dispatch subject is the stored subject when set and
non-empty, else the first 50 characters of the content's first line; and
send passes exactly this subject to the dispatcher. -/
theorem c10_dispatch_subject (d : Draft) (store : Store) (id : Nat) (now : DT)
    (dispatch : Bool) :
    (d.content = "" → dispatchSubject d = "Email") ∧
    (d.content ≠ "" → dispatchSubject d =
      (match d.subject with
       | some s => if s = "" then pyTake 50 (pyFirstLine d.content) else s
       | none => pyTake 50 (pyFirstLine d.content))) ∧
    (lookupDraft store id = some d →
      (send dispatch now store id).dispatched =
        some (d.recipient, dispatchSubject d, d.content)) := by
  refine ⟨?_, ?_, ?_⟩
  · intro h
    simp [dispatchSubject, h]
  · intro h
    unfold dispatchSubject
    rw [if_neg (by simpa [beq_iff_eq] using h)]
    cases d.subject with
    | none => rfl
    | some s =>
        by_cases hs : s = "" <;> simp [hs]
  · intro h
    unfold send
    rw [h]
    cases dispatch <;> rfl

/-- Witness for C10 at concrete drafts. -/
theorem c10_witness :
    dispatchSubject { exDraft with content := "", subject := some "Subj" } = "Email" ∧
    dispatchSubject exDraft = "Subj" ∧
    (send true ⟨2026, 1, 2, 0⟩ [(1, exDraft)] 1).dispatched =
      some (exDraft.recipient, dispatchSubject exDraft, exDraft.content) := by
  refine ⟨?_, ?_, ?_⟩
  · exact (c10_dispatch_subject { exDraft with content := "", subject := some "Subj" }
      [] 0 ⟨2026, 1, 2, 0⟩ true).1 rfl
  · exact (c10_dispatch_subject exDraft [] 0 ⟨2026, 1, 2, 0⟩ true).2.1 (by decide)
  · exact (c10_dispatch_subject exDraft [(1, exDraft)] 1 ⟨2026, 1, 2, 0⟩ true).2.2
      (by decide)

/-! ### Claim C4 -/

/-- C4: the reported success_rate is total_sent / total_emails * 100 rounded
to one decimal place when the store is non-empty, and is 0 — by the explicit
`if total_emails` guard, not an error — when the draft set is empty. -/
theorem c4_success_rate (ds : List Draft) :
    (totalEmails ds = 0 → successRate ds = 0) ∧
    (totalEmails ds ≠ 0 →
      successRate ds =
        pyRound1 ((totalSent ds : ℚ) / (totalEmails ds : ℚ) * 100)) := by
  constructor
  · intro h
    unfold successRate successRateRaw
    rw [if_pos h]
    unfold pyRound1 roundHalfEven
    norm_num
  · intro h
    unfold successRate successRateRaw
    rw [if_neg h]

/-- Witness for C4: the empty store reports 0, and one sent draft out of
three reports round(100/3, 1) = 33.3. -/
theorem c4_witness :
    successRate [] = 0 ∧
    totalEmails exStatusDrafts = 3 ∧
    successRate exStatusDrafts = pyRound1 ((1 : ℚ) / 3 * 100) ∧
    successRate exStatusDrafts = 333 / 10 := by
  refine ⟨(c4_success_rate []).1 rfl, by decide, ?_, ?_⟩
  · have h := (c4_success_rate exStatusDrafts).2 (by decide)
    have e1 : totalSent exStatusDrafts = 1 := by decide
    have e2 : totalEmails exStatusDrafts = 3 := by decide
    rw [e1, e2] at h
    simpa using h
  · have h := (c4_success_rate exStatusDrafts).2 (by decide)
    have e1 : totalSent exStatusDrafts = 1 := by decide
    have e2 : totalEmails exStatusDrafts = 3 := by decide
    rw [e1, e2] at h
    rw [h]
    norm_num [pyRound1, roundHalfEven]

/-! ### Claim C5 -/

/-- C5: when every draft's status is one of sent, draft, failed, the three
status counts partition the store: total_sent + total_drafts + total_failed
equals total_emails. -/
theorem c5_status_partition (ds : List Draft)
    (h : ∀ d ∈ ds, d.status = "sent" ∨ d.status = "draft" ∨ d.status = "failed") :
    totalSent ds + totalDrafts ds + totalFailed ds = totalEmails ds := by
  induction ds with
  | nil => rfl
  | cons d ds ih =>
      have hd := h d (List.mem_cons_self d ds)
      have ih2 := ih (fun e he => h e (List.mem_cons_of_mem d he))
      unfold totalSent totalDrafts totalFailed totalEmails at ih2 ⊢
      rw [List.countP_cons, List.countP_cons, List.countP_cons, List.length_cons]
      rcases hd with h1 | h1 | h1 <;> simp [h1] <;> omega

/-- Witness for C5 at one draft of each status. -/
theorem c5_witness :
    (∀ d ∈ exStatusDrafts,
      d.status = "sent" ∨ d.status = "draft" ∨ d.status = "failed") ∧
    totalSent exStatusDrafts + totalDrafts exStatusDrafts +
      totalFailed exStatusDrafts = totalEmails exStatusDrafts :=
  ⟨by decide, c5_status_partition exStatusDrafts (by decide)⟩

/-! ### Claim C1 -/

/-- C1 as stated is false: "sent" is not absorbing.  A draft sent
successfully (status "sent") and then sent again with a failing dispatcher
moves to status "failed" — and its stale sent_at stays set. -/
theorem c1_counterexample :
    (lookupDraft (send true ⟨2026, 1, 2, 0⟩ [(1, exDraft)] 1).store 1).map
        (fun d => d.status) = some "sent" ∧
    (lookupDraft (send false ⟨2026, 1, 3, 0⟩
        (send true ⟨2026, 1, 2, 0⟩ [(1, exDraft)] 1).store 1).store 1).map
        (fun d => d.status) = some "failed" ∧
    (lookupDraft (send false ⟨2026, 1, 3, 0⟩
        (send true ⟨2026, 1, 2, 0⟩ [(1, exDraft)] 1).store 1).store 1).map
        (fun d => d.sent_at) = some (some ⟨2026, 1, 2, 0⟩) := by
  refine ⟨rfl, rfl, rfl⟩

/-- C1 (amended): status starts at "draft" (modelled from the spec, since
`models.py` is absent) and changes only through send — on dispatcher success
to "sent" with sent_at set to the send instant, on failure to "failed" with
sent_at unchanged — but send never checks the current status, so a
further send can move a draft away from "sent" or "failed".  update_draft
leaves every status unchanged. -/
theorem c1_amended (now now2 : DT) (p r tn ty c cnt m : String)
    (sub : Option String) (store st2 : Store) (id j : Nat) (d : Draft) :
    (newDraft now p r tn ty c sub).status = "draft" ∧
    (newDraft now p r tn ty c sub).sent_at = none ∧
    (lookupDraft store id = some d →
      lookupDraft (send true now2 store id).store id =
        some { d with status := "sent", sent_at := some now2 } ∧
      lookupDraft (send false now2 store id).store id =
        some { d with status := "failed" }) ∧
    (update_draft store id cnt = .ok (st2, m) →
      (lookupDraft st2 j).map (fun e => e.status) =
        (lookupDraft store j).map (fun e => e.status)) := by
  refine ⟨rfl, rfl, ?_, ?_⟩
  · intro h
    unfold send
    rw [h]
    constructor
    · exact lookup_setDraft store id d _ h
    · exact lookup_setDraft store id d _ h
  · intro h
    unfold update_draft catchAll update_draft_body at h
    cases hl : lookupDraft store id with
    | none => rw [hl] at h; cases h
    | some d0 =>
        rw [hl] at h
        have hst : st2 = setDraft store id { d0 with content := cnt } := by
          cases h; rfl
        rw [hst]
        exact lookup_setDraft_status store id j d0 _ hl rfl

/-- Witness for C1 (amended) at a concrete store. -/
theorem c1_amended_witness :
    lookupDraft [(1, exDraft)] 1 = some exDraft ∧
    lookupDraft (send true ⟨2026, 1, 2, 0⟩ [(1, exDraft)] 1).store 1 =
      some { exDraft with status := "sent", sent_at := some ⟨2026, 1, 2, 0⟩ } ∧
    update_draft [(1, exDraft)] 1 "new" =
      .ok (setDraft [(1, exDraft)] 1 { exDraft with content := "new" },
        "Draft updated") ∧
    (lookupDraft (setDraft [(1, exDraft)] 1 { exDraft with content := "new" }) 1).map
        (fun e => e.status) =
      (lookupDraft [(1, exDraft)] 1).map (fun e => e.status) := by
  refine ⟨rfl, ?_, rfl, ?_⟩
  · exact ((c1_amended ⟨2026, 1, 1, 0⟩ ⟨2026, 1, 2, 0⟩ "p" "r" "t" "g" "c" "x" "y"
      none [(1, exDraft)] [] 1 1 exDraft).2.2.1 rfl).1
  · exact (c1_amended ⟨2026, 1, 1, 0⟩ ⟨2026, 1, 2, 0⟩ "p" "r" "t" "g" "c" "new" "Draft updated"
      none [(1, exDraft)]
      (setDraft [(1, exDraft)] 1 { exDraft with content := "new" }) 1 1 exDraft).2.2.2 rfl

/-! ### Claim C6 -/

/-- C6 as stated is false: evaluated on 2026-03-15, the six window anchors
are Mar 1, Jan 30, Dec 31, Dec 1, Nov 1 and Oct 2 — the label list (oldest
first) repeats "Dec" and skips "Feb", so the entries do not cover the
current month and the 5 preceding months. -/
theorem c6_counterexample :
    (monthlyStats ⟨2026, 3, 15, 0⟩ []).map (fun e => e.month) =
      ["Oct", "Nov", "Dec", "Dec", "Jan", "Mar"] ∧
    "Feb" ∉ (monthlyStats ⟨2026, 3, 15, 0⟩ []).map (fun e => e.month) := by
  refine ⟨by decide, by decide⟩

/-- C6 (amended): monthly_stats always has exactly 6 entries, ordered
oldest-anchor first; the entry for loop index i is labelled with the month
of first-of-current-month minus 30*i days.  These anchors usually but not
always fall in the current and 5 preceding calendar months (short months
shift them, duplicating or skipping a month). -/
theorem c6_amended (now : DT) (ds : List Draft) :
    (monthlyStats now ds).length = 6 ∧
    (monthlyStats now ds).map (fun e => e.month) =
      [monthAbbrev (monthStart now 5).month, monthAbbrev (monthStart now 4).month,
       monthAbbrev (monthStart now 3).month, monthAbbrev (monthStart now 2).month,
       monthAbbrev (monthStart now 1).month, monthAbbrev (monthStart now 0).month] := by
  have hr : List.range 6 = [0, 1, 2, 3, 4, 5] := rfl
  have hm : ∀ i, (monthEntry now ds i).month = monthAbbrev (monthStart now i).month :=
    fun i => rfl
  constructor
  · rfl
  · simp only [monthlyStats]
    rw [hr]
    simp [hm]

/-! ### Claim C3 -/

/-- C3 as stated is false: evaluated at 2026-10-12 00:00 UTC, the i = 2
window start is 2026-08-02 — not re-anchored to day 1 of August — and a
draft with status "sent" created 2026-08-01 is counted in no window: every
(month, sent) pair of monthly_stats is listed with sent = 0, so the "Aug"
entry does not cover that entire calendar month. -/
theorem c3_counterexample :
    (monthStart ⟨2026, 10, 12, 0⟩ 2).day = 2 ∧
    (monthStart ⟨2026, 10, 12, 0⟩ 2).month = 8 ∧
    (monthlyStats ⟨2026, 10, 12, 0⟩ [exDraftOf "sent" "a" ⟨2026, 8, 1, 0⟩]).map
        (fun e => (e.month, e.sent)) =
      [("May", 0), ("Jun", 0), ("Jul", 0), ("Aug", 0), ("Sep", 0), ("Oct", 0)] := by
  refine ⟨by decide, by decide, by decide⟩

/-- C3 (amended): the i-th window start is the first day of the current
month minus 30*i days, kept at the evaluation time-of-day and NOT
re-anchored to day 1; the window end is the last day of the calendar month
that start falls in, at the same time-of-day; the entry label is the
abbreviated month of the start.  Counts therefore cover [start, end], which
can omit the first days of the labelled month. -/
theorem c3_amended (now : DT) (i : Nat) (ds : List Draft) (h : ValidDT now) :
    (monthStart now i).t = now.t ∧
    monthEnd (monthStart now i) =
      ⟨(monthStart now i).year, (monthStart now i).month,
       daysInMonth (monthStart now i).year (monthStart now i).month,
       (monthStart now i).t⟩ ∧
    (monthEntry now ds i).month = monthAbbrev (monthStart now i).month := by
  obtain ⟨hm1, hm2, hd1, hd2⟩ := monthStart_valid now i h
  refine ⟨?_, monthEnd_eq (monthStart now i) hm1 hm2, rfl⟩
  unfold monthStart
  exact (subDays_t _ _).trans rfl

/-- Witness for C3 (amended) at 2026-10-12, i = 2: the window is
Aug 2 .. Aug 31. -/
theorem c3_witness :
    ValidDT (⟨2026, 10, 12, 0⟩ : DT) ∧
    monthStart ⟨2026, 10, 12, 0⟩ 2 = ⟨2026, 8, 2, 0⟩ ∧
    monthEnd (monthStart ⟨2026, 10, 12, 0⟩ 2) = ⟨2026, 8, 31, 0⟩ := by
  refine ⟨by decide, by decide, ?_⟩
  have h := (c3_amended ⟨2026, 10, 12, 0⟩ 2 [] (by decide)).2.1
  exact h.trans (by decide)

/-! ### Lemmas about Python string stripping -/

theorem dropWhile_length_le (p : Char → Bool) (l : List Char) :
    (l.dropWhile p).length ≤ l.length := by
  induction l with
  | nil => simp
  | cons a t ih =>
      by_cases h : p a = true
      · rw [List.dropWhile_cons_of_pos h]
        exact Nat.le_succ_of_le ih
      · rw [List.dropWhile_cons_of_neg h]

theorem dropWhile_dropWhile (p : Char → Bool) (l : List Char) :
    (l.dropWhile p).dropWhile p = l.dropWhile p := by
  induction l with
  | nil => rfl
  | cons a t ih =>
      by_cases h : p a = true
      · rw [List.dropWhile_cons_of_pos h]
        exact ih
      · rw [List.dropWhile_cons_of_neg h, List.dropWhile_cons_of_neg h]

theorem dropWhile_head_not (p : Char → Bool) (a : Char) (t : List Char)
    (h : (a :: t).dropWhile p = a :: t) : ¬ p a = true := by
  intro hpa
  rw [List.dropWhile_cons_of_pos hpa] at h
  have hle := dropWhile_length_le p t
  have hlen := congrArg List.length h
  simp only [List.length_cons] at hlen
  omega

theorem dropWhile_prefix_eq (p : Char → Bool) (l l' : List Char)
    (hp : l' <+: l) (h : l.dropWhile p = l) : l'.dropWhile p = l' := by
  cases l' with
  | nil => rfl
  | cons a t =>
      obtain ⟨s, hs⟩ := hp
      rw [← hs, List.cons_append] at h
      exact List.dropWhile_cons_of_neg (dropWhile_head_not p a (t ++ s) h)

theorem dropWhile_append_eq_self (p : Char → Bool) (l r : List Char)
    (h : l.dropWhile p = l) (hl : l ≠ []) :
    (l ++ r).dropWhile p = l ++ r := by
  cases l with
  | nil => cases hl rfl
  | cons a t =>
      rw [List.cons_append]
      exact List.dropWhile_cons_of_neg (dropWhile_head_not p a t h)

/-- A list whose front and back are already stripped is unchanged by
a double-ended strip. -/
theorem strip_list_eq_self (l : List Char)
    (h1 : l.dropWhile pyIsSpace = l)
    (h2 : l.reverse.dropWhile pyIsSpace = l.reverse) :
    ((l.dropWhile pyIsSpace).reverse.dropWhile pyIsSpace).reverse = l := by
  rw [h1, h2, List.reverse_reverse]

theorem pyStrip_mk (l : List Char) :
    pyStrip ⟨l⟩ = ⟨((l.dropWhile pyIsSpace).reverse.dropWhile pyIsSpace).reverse⟩ := rfl

theorem pyStrip_eq_self (s : String)
    (h1 : s.data.dropWhile pyIsSpace = s.data)
    (h2 : s.data.reverse.dropWhile pyIsSpace = s.data.reverse) :
    pyStrip s = s :=
  congrArg String.mk (strip_list_eq_self s.data h1 h2)

theorem pyStrip_idem (s : String) : pyStrip (pyStrip s) = pyStrip s := by
  apply pyStrip_eq_self
  · have hf : (s.data.dropWhile pyIsSpace).dropWhile pyIsSpace =
        s.data.dropWhile pyIsSpace := dropWhile_dropWhile _ _
    have hpre : (pyStrip s).data <+: s.data.dropWhile pyIsSpace := by
      have h1 : ((s.data.dropWhile pyIsSpace).reverse.dropWhile pyIsSpace).reverse <+:
          (s.data.dropWhile pyIsSpace).reverse.reverse :=
        List.reverse_prefix.mpr (List.dropWhile_suffix _)
      rwa [List.reverse_reverse] at h1
    exact dropWhile_prefix_eq _ _ _ hpre hf
  · have hrev : (pyStrip s).data.reverse =
        (s.data.dropWhile pyIsSpace).reverse.dropWhile pyIsSpace :=
      List.reverse_reverse _
    rw [hrev]
    exact dropWhile_dropWhile _ _

/-- The fallback template carries no leading or trailing whitespace, so
`strip` leaves it unchanged. -/
theorem pyStrip_fallback (prompt tone : String) :
    pyStrip (fallbackContent prompt tone) = fallbackContent prompt tone := by
  have hdata : (fallbackContent prompt tone).data =
      (fallbackGreeting tone).data ++
        ("\n\n".data ++ (prompt.data ++ ("\n\n".data ++ (fallbackClosing tone).data))) := by
    show ((((fallbackGreeting tone ++ "\n\n") ++ prompt) ++ "\n\n") ++
        fallbackClosing tone).data = _
    simp [List.append_assoc]
  apply pyStrip_eq_self
  · rw [hdata]
    apply dropWhile_append_eq_self
    · unfold fallbackGreeting
      by_cases hc : (pyLower tone == "friendly" || pyLower tone == "casual") = true
      · rw [if_pos hc]; decide
      · rw [if_neg hc]; decide
    · unfold fallbackGreeting
      by_cases hc : (pyLower tone == "friendly" || pyLower tone == "casual") = true
      · rw [if_pos hc]; decide
      · rw [if_neg hc]; decide
  · rw [hdata]
    simp only [List.reverse_append, List.append_assoc]
    apply dropWhile_append_eq_self
    · unfold fallbackClosing
      by_cases hc : (pyLower tone == "friendly" || pyLower tone == "casual") = true
      · rw [if_pos hc]; decide
      · rw [if_neg hc]; decide
    · unfold fallbackClosing
      by_cases hc : (pyLower tone == "friendly" || pyLower tone == "casual") = true
      · rw [if_pos hc]; decide
      · rw [if_neg hc]; decide

/-- The content produced by the generator is always already stripped:
API text is stripped on arrival and the fallback template has no
surrounding whitespace. -/
theorem pyStrip_gewsContent (api : Option String) (prompt tone : String) :
    pyStrip (gewsContent api prompt tone) = gewsContent api prompt tone := by
  unfold gewsContent generate_email_content
  cases api with
  | none => exact pyStrip_fallback prompt tone
  | some t =>
      simp only [Option.map]
      by_cases h : (pyStrip t == "") = true
      · rw [if_pos h]
        exact pyStrip_fallback prompt tone
      · rw [if_neg h]
        exact pyStrip_idem t

/-! ### Claim C8 -/

/-- C8: the generator's subject is the first line of the resulting content
verbatim when that line is shorter than 80 characters, and otherwise the
first 7 whitespace-separated tokens of the original prompt joined by single
spaces.  (The code takes the first line of `content.strip()`, but every
resulting content is already stripped, so this is the first line of the
content itself.) -/
theorem c8_subject (api : Option String) (prompt tone : String) :
    (generate_email_with_subject api prompt tone).subject =
      (if pyLen (pyFirstLine ((generate_email_with_subject api prompt tone).content)) < 80
       then pyFirstLine ((generate_email_with_subject api prompt tone).content)
       else String.intercalate " " ((pyWords prompt).take 7)) := by
  have h1 : (generate_email_with_subject api prompt tone).content =
      gewsContent api prompt tone := rfl
  have h2 : (generate_email_with_subject api prompt tone).subject =
      (if pyLen (pyFirstLine (pyStrip (gewsContent api prompt tone))) < 80
       then pyFirstLine (pyStrip (gewsContent api prompt tone))
       else String.intercalate " " ((pyWords prompt).take 7)) := rfl
  rw [h1, h2, pyStrip_gewsContent]

/-! ### Claim C7 -/

/-- C7: whenever the generation backend yields no usable text (unconfigured,
errored, no candidates — all modelled by `none` — or text that strips to
empty), the content is exactly the tone-selected greeting, the raw prompt
and the matching closing; for a tone outside the friendly/casual category
the content begins with "Dear Sir/Madam," and ends with
"Best regards,\n[Your Name]". -/
theorem c7_fallback (prompt tone : String) (api : Option String)
    (h : generate_email_content api = none ∨ generate_email_content api = some "") :
    (generate_email_with_subject api prompt tone).content =
      fallbackGreeting tone ++ "\n\n" ++ prompt ++ "\n\n" ++ fallbackClosing tone ∧
    ((pyLower tone == "friendly" || pyLower tone == "casual") = false →
      pyStartsWith (generate_email_with_subject api prompt tone).content
        "Dear Sir/Madam," = true ∧
      pyEndsWith (generate_email_with_subject api prompt tone).content
        "Best regards,\n[Your Name]" = true) := by
  have hc : (generate_email_with_subject api prompt tone).content =
      gewsContent api prompt tone := rfl
  have hfb : gewsContent api prompt tone = fallbackContent prompt tone := by
    unfold gewsContent
    rcases h with h | h
    · rw [h]
    · rw [h]
      rfl
  constructor
  · rw [hc, hfb]
    rfl
  · intro htone
    have hg : fallbackGreeting tone = "Dear Sir/Madam," := by
      unfold fallbackGreeting
      rw [if_neg (by rw [htone]; exact Bool.false_ne_true)]
    have hcl : fallbackClosing tone = "Best regards,\n[Your Name]" := by
      unfold fallbackClosing
      rw [if_neg (by rw [htone]; exact Bool.false_ne_true)]
    rw [hc, hfb]
    unfold fallbackContent
    rw [hg, hcl]
    constructor
    · unfold pyStartsWith
      rw [ List.isPrefixOf_iff_prefix]
      have hd : ((("Dear Sir/Madam," ++ "\n\n") ++ prompt) ++ "\n\n" ++
          "Best regards,\n[Your Name]").data =
          "Dear Sir/Madam,".data ++ ("\n\n".data ++ (prompt.data ++
            ("\n\n".data ++ "Best regards,\n[Your Name]".data))) := by
        simp [List.append_assoc]
      rw [hd]
      exact List.prefix_append _ _
    · unfold pyEndsWith
      rw [List.isSuffixOf_iff_suffix]
      have hd : ((("Dear Sir/Madam," ++ "\n\n") ++ prompt) ++ "\n\n" ++
          "Best regards,\n[Your Name]").data =
          ("Dear Sir/Madam,".data ++ "\n\n".data ++ prompt.data ++ "\n\n".data) ++
            "Best regards,\n[Your Name]".data := rfl
      rw [hd]
      exact List.suffix_append _ _

/-- Witness for C7 at the spec's example: unconfigured backend, prompt
"renew license", tone "formal". -/
theorem c7_witness :
    (generate_email_content none = none ∨ generate_email_content none = some "") ∧
    (generate_email_with_subject none "renew license" "formal").content =
      "Dear Sir/Madam,\n\nrenew license\n\nBest regards,\n[Your Name]" ∧
    pyStartsWith (generate_email_with_subject none "renew license" "formal").content
      "Dear Sir/Madam," = true ∧
    pyEndsWith (generate_email_with_subject none "renew license" "formal").content
      "Best regards,\n[Your Name]" = true := by
  have h := c7_fallback "renew license" "formal" none (Or.inl rfl)
  refine ⟨Or.inl rfl, ?_, ?_, ?_⟩
  · exact h.1.trans (by decide)
  · exact (h.2 (by decide)).1
  · exact (h.2 (by decide)).2

/-! ### Lemmas about the tone counter and most_common -/

theorem lookupCount_cons (k : String) (n : Nat) (rest : List (String × Nat))
    (t : String) :
    lookupCount ((k, n) :: rest) t =
      if k = t then some n else lookupCount rest t := rfl

theorem hasKey_cons (k : String) (n : Nat) (rest : List (String × Nat))
    (t : String) :
    hasKey ((k, n) :: rest) t = if k = t then true else hasKey rest t := rfl

theorem mapBump_cons (u k : String) (n : Nat) (rest : List (String × Nat)) :
    ((k, n) :: rest).map (fun p => if p.1 = u then (p.1, p.2 + 1) else p) =
      (if k = u then (k, n + 1) else (k, n)) ::
        rest.map (fun p => if p.1 = u then (p.1, p.2 + 1) else p) := rfl

theorem hasKey_eq_isSome (acc : List (String × Nat)) (t : String) :
    hasKey acc t = (lookupCount acc t).isSome := by
  induction acc with
  | nil => rfl
  | cons p rest ih =>
      obtain ⟨k, n⟩ := p
      rw [hasKey_cons, lookupCount_cons]
      by_cases hk : k = t
      · rw [if_pos hk, if_pos hk]
        rfl
      · rw [if_neg hk, if_neg hk]
        exact ih

theorem lookupCount_map_bump (acc : List (String × Nat)) (t : String) :
    lookupCount (acc.map (fun p => if p.1 = t then (p.1, p.2 + 1) else p)) t =
      (lookupCount acc t).map (fun n => n + 1) := by
  induction acc with
  | nil => rfl
  | cons p rest ih =>
      obtain ⟨k, n⟩ := p
      rw [mapBump_cons, lookupCount_cons]
      by_cases hk : k = t
      · rw [if_pos hk, if_pos hk, lookupCount_cons, if_pos hk]
        rfl
      · rw [if_neg hk, if_neg hk, lookupCount_cons, if_neg hk]
        exact ih

theorem lookupCount_map_bump_ne (acc : List (String × Nat)) (t u : String)
    (h : u ≠ t) :
    lookupCount (acc.map (fun p => if p.1 = u then (p.1, p.2 + 1) else p)) t =
      lookupCount acc t := by
  induction acc with
  | nil => rfl
  | cons p rest ih =>
      obtain ⟨k, n⟩ := p
      rw [mapBump_cons, lookupCount_cons]
      by_cases hk : k = u
      · have hkt : ¬ k = t := by rw [hk]; exact h
        rw [if_pos hk, lookupCount_cons, if_neg hkt, if_neg hkt]
        exact ih
      · rw [if_neg hk, lookupCount_cons]
        by_cases hkt : k = t
        · rw [if_pos hkt, if_pos hkt]
        · rw [if_neg hkt, if_neg hkt]
          exact ih

theorem lookupCount_append_of_none (acc l2 : List (String × Nat)) (t : String)
    (h : lookupCount acc t = none) :
    lookupCount (acc ++ l2) t = lookupCount l2 t := by
  induction acc with
  | nil => rfl
  | cons p rest ih =>
      obtain ⟨k, n⟩ := p
      rw [lookupCount_cons] at h
      rw [List.cons_append, lookupCount_cons]
      by_cases hk : k = t
      · rw [if_pos hk] at h
        cases h
      · rw [if_neg hk] at h
        rw [if_neg hk]
        exact ih h

theorem lookupCount_append_ne (acc : List (String × Nat)) (t u : String)
    (h : u ≠ t) :
    lookupCount (acc ++ [(u, 1)]) t = lookupCount acc t := by
  induction acc with
  | nil =>
      show lookupCount [(u, 1)] t = none
      rw [lookupCount_cons, if_neg h]
      rfl
  | cons p rest ih =>
      obtain ⟨k, n⟩ := p
      rw [List.cons_append, lookupCount_cons, lookupCount_cons]
      by_cases hk : k = t
      · rw [if_pos hk, if_pos hk]
      · rw [if_neg hk, if_neg hk]
        exact ih

theorem lookupCount_bump_self (acc : List (String × Nat)) (t : String) :
    lookupCount (bump acc t) t = some ((lookupCount acc t).getD 0 + 1) := by
  unfold bump
  by_cases h : hasKey acc t = true
  · rw [if_pos h, lookupCount_map_bump]
    rw [hasKey_eq_isSome] at h
    cases hl : lookupCount acc t with
    | none => rw [hl] at h; cases h
    | some n => rfl
  · rw [if_neg h]
    rw [hasKey_eq_isSome] at h
    have hnone : lookupCount acc t = none := by
      cases hl : lookupCount acc t with
      | none => rfl
      | some n => rw [hl] at h; cases h rfl
    rw [lookupCount_append_of_none acc _ t hnone, hnone]
    rw [lookupCount_cons, if_pos rfl]
    rfl

theorem lookupCount_bump_ne (acc : List (String × Nat)) (t u : String)
    (h : u ≠ t) :
    lookupCount (bump acc u) t = lookupCount acc t := by
  unfold bump
  by_cases hk : hasKey acc u = true
  · rw [if_pos hk]
    exact lookupCount_map_bump_ne acc t u h
  · rw [if_neg hk]
    exact lookupCount_append_ne acc t u h

theorem lookupCount_foldl_bump (ts : List String) (acc : List (String × Nat))
    (t : String) :
    lookupCount (List.foldl bump acc ts) t =
      if t ∈ ts then some ((lookupCount acc t).getD 0 + ts.count t)
      else lookupCount acc t := by
  induction ts generalizing acc with
  | nil => simp
  | cons u ts ih =>
      rw [List.foldl_cons, ih (bump acc u)]
      by_cases htu : t = u
      · subst htu
        rw [if_pos (List.mem_cons_self t ts), List.count_cons_self,
          lookupCount_bump_self]
        by_cases hm : t ∈ ts
        · rw [if_pos hm]
          simp only [Option.getD_some]
          congr 1
          omega
        · rw [if_neg hm]
          have hc : ts.count t = 0 := List.count_eq_zero.mpr hm
          rw [hc]
      · have hut : ¬ u = t := by intro hc; exact htu hc.symm
        rw [lookupCount_bump_ne acc t u hut]
        have hcnt : (u :: ts).count t = ts.count t := by
          rw [List.count_cons]
          simp [htu, hut]
        rw [hcnt]
        by_cases hm : t ∈ ts
        · rw [if_pos hm, if_pos (List.mem_cons_of_mem u hm)]
        · rw [if_neg hm, if_neg (by
            intro hc
            rcases List.mem_cons.mp hc with hc | hc
            · exact htu hc
            · exact hm hc)]

theorem lookupCount_counterItems (ts : List String) (t : String) (h : t ∈ ts) :
    lookupCount (counterItems ts) t = some (ts.count t) := by
  unfold counterItems
  rw [lookupCount_foldl_bump ts [] t, if_pos h]
  show some (Option.getD none 0 + ts.count t) = _
  rw [Option.getD_none, Nat.zero_add]

theorem mem_of_lookupCount (l : List (String × Nat)) (t : String) (n : Nat)
    (h : lookupCount l t = some n) : (t, n) ∈ l := by
  induction l with
  | nil => cases h
  | cons p rest ih =>
      obtain ⟨k, m⟩ := p
      rw [lookupCount_cons] at h
      by_cases hk : k = t
      · rw [if_pos hk] at h
        cases h
        rw [hk]
        exact List.mem_cons_self _ _
      · rw [if_neg hk] at h
        exact List.mem_cons_of_mem _ (ih h)

theorem keys_map_bump (acc : List (String × Nat)) (t : String) :
    (acc.map (fun p => if p.1 = t then (p.1, p.2 + 1) else p)).map Prod.fst =
      acc.map Prod.fst := by
  induction acc with
  | nil => rfl
  | cons p rest ih =>
      obtain ⟨k, n⟩ := p
      rw [mapBump_cons, List.map_cons, List.map_cons]
      by_cases hk : k = t
      · rw [if_pos hk]
        rw [ih]
      · rw [if_neg hk]
        rw [ih]

theorem not_mem_keys_of_hasKey_false (acc : List (String × Nat)) (t : String)
    (h : hasKey acc t = false) : t ∉ acc.map Prod.fst := by
  induction acc with
  | nil => simp
  | cons p rest ih =>
      obtain ⟨k, n⟩ := p
      rw [hasKey_cons] at h
      by_cases hk : k = t
      · rw [if_pos hk] at h
        cases h
      · rw [if_neg hk] at h
        simp only [List.map_cons, List.mem_cons]
        rintro (hc | hc)
        · exact hk hc.symm
        · exact ih h hc

theorem nodup_keys_foldl_bump (ts : List String) (acc : List (String × Nat))
    (h : (acc.map Prod.fst).Nodup) :
    ((List.foldl bump acc ts).map Prod.fst).Nodup := by
  induction ts generalizing acc with
  | nil => exact h
  | cons u ts ih =>
      rw [List.foldl_cons]
      apply ih
      by_cases hk : hasKey acc u = true
      · unfold bump
        rw [if_pos hk, keys_map_bump]
        exact h
      · unfold bump
        rw [if_neg hk, List.map_append]
        have hku : hasKey acc u = false := by
          cases hc : hasKey acc u
          · rfl
          · cases hk hc
        have hnm := not_mem_keys_of_hasKey_false acc u hku
        simp [List.nodup_append, h, hnm]

theorem nodupKeys_counterItems (ts : List String) :
    ((counterItems ts).map Prod.fst).Nodup :=
  nodup_keys_foldl_bump ts [] (by simp)

theorem insertDesc_perm (x : String × Nat) (l : List (String × Nat)) :
    List.Perm (insertDesc x l) (x :: l) := by
  induction l with
  | nil => exact List.Perm.refl _
  | cons y ys ih =>
      unfold insertDesc
      by_cases hlt : y.2 < x.2
      · rw [if_pos hlt]
      · rw [if_neg hlt]
        exact (ih.cons y).trans (List.Perm.swap x y ys)

theorem foldl_insertDesc_perm (l acc : List (String × Nat)) :
    List.Perm (List.foldl (fun acc x => insertDesc x acc) acc l) (acc ++ l) := by
  induction l generalizing acc with
  | nil => simp
  | cons x l ih =>
      rw [List.foldl_cons]
      refine (ih (insertDesc x acc)).trans ?_
      refine ((insertDesc_perm x acc).append_right l).trans ?_
      rw [List.cons_append]
      exact List.perm_middle.symm

theorem mostCommon_perm (l : List (String × Nat)) :
    List.Perm (mostCommon l) l := by
  have h := foldl_insertDesc_perm l []
  simpa [mostCommon] using h

theorem insertDesc_sorted (x : String × Nat) (l : List (String × Nat))
    (h : l.Pairwise (fun a b => b.2 ≤ a.2)) :
    (insertDesc x l).Pairwise (fun a b => b.2 ≤ a.2) := by
  induction l with
  | nil => simp [insertDesc]
  | cons y ys ih =>
      rw [List.pairwise_cons] at h
      obtain ⟨hy, hys⟩ := h
      unfold insertDesc
      by_cases hlt : y.2 < x.2
      · rw [if_pos hlt]
        refine List.Pairwise.cons ?_ (List.Pairwise.cons hy hys)
        intro z hz
        rcases List.mem_cons.mp hz with hz | hz
        · rw [hz]
          omega
        · have := hy z hz
          omega
      · rw [if_neg hlt]
        refine List.Pairwise.cons ?_ (ih hys)
        intro z hz
        rcases List.mem_cons.mp ((insertDesc_perm x ys).mem_iff.mp hz) with hz | hz
        · rw [hz]
          omega
        · exact hy z hz

theorem mostCommon_sorted (l : List (String × Nat)) :
    (mostCommon l).Pairwise (fun a b => b.2 ≤ a.2) := by
  have haux : ∀ (l acc : List (String × Nat)),
      acc.Pairwise (fun a b => b.2 ≤ a.2) →
      (List.foldl (fun acc x => insertDesc x acc) acc l).Pairwise
        (fun a b => b.2 ≤ a.2) := by
    intro l
    induction l with
    | nil => intro acc h; exact h
    | cons x l ih =>
        intro acc h
        rw [List.foldl_cons]
        exact ih _ (insertDesc_sorted x acc h)
  exact haux l [] (by simp)

/-! ### Stability of most_common and first-encounter order of the counter -/

theorem insertDesc_split (x : String × Nat) (l : List (String × Nat)) :
    ∃ u v, l = u ++ v ∧ insertDesc x l = u ++ x :: v ∧
      (∀ y ∈ u, x.2 ≤ y.2) ∧ (∀ z, v.head? = some z → z.2 < x.2) := by
  induction l with
  | nil => exact ⟨[], [], rfl, rfl, by simp, by simp⟩
  | cons y ys ih =>
      by_cases hlt : y.2 < x.2
      · refine ⟨[], y :: ys, rfl, ?_, by simp, ?_⟩
        · unfold insertDesc
          rw [if_pos hlt]
          rfl
        · intro z hz
          simp only [List.head?_cons, Option.some.injEq] at hz
          rw [← hz]
          exact hlt
      · obtain ⟨u, v, h1, h2, h3, h4⟩ := ih
        refine ⟨y :: u, v, by rw [List.cons_append, ← h1], ?_, ?_, h4⟩
        · show insertDesc x (y :: ys) = (y :: u) ++ x :: v
          unfold insertDesc
          rw [if_neg hlt, h2]
          rfl
        · intro z hz
          rcases List.mem_cons.mp hz with hz | hz
          · rw [hz]
            omega
          · exact h3 z hz

theorem sublist_insertDesc (x : String × Nat) (l s : List (String × Nat))
    (h : List.Sublist s l) : List.Sublist s (insertDesc x l) := by
  obtain ⟨u, v, h1, h2, _, _⟩ := insertDesc_split x l
  rw [h2]
  refine h.trans ?_
  rw [h1]
  exact List.Sublist.append (List.Sublist.refl u)
    (List.Sublist.cons x (List.Sublist.refl v))

theorem mem_insertDesc (x a : String × Nat) (l : List (String × Nat))
    (h : a ∈ l) : a ∈ insertDesc x l := by
  obtain ⟨u, v, h1, h2, _, _⟩ := insertDesc_split x l
  rw [h2]
  rw [h1] at h
  rcases List.mem_append.mp h with h | h
  · exact List.mem_append.mpr (Or.inl h)
  · exact List.mem_append.mpr (Or.inr (List.mem_cons_of_mem x h))

theorem self_mem_insertDesc (x : String × Nat) (l : List (String × Nat)) :
    x ∈ insertDesc x l := by
  obtain ⟨u, v, _, h2, _, _⟩ := insertDesc_split x l
  rw [h2]
  exact List.mem_append.mpr (Or.inr (List.mem_cons_self x v))

/-- Inserting `x` into a descending-sorted list places it after every
already-present entry whose count is at least `x`'s: the pair keeps the
arrival order. -/
theorem pair_sublist_insertDesc (x a : String × Nat) (l : List (String × Nat))
    (hsort : l.Pairwise (fun p q => q.2 ≤ p.2)) (ha : a ∈ l) (hx : x.2 ≤ a.2) :
    List.Sublist [a, x] (insertDesc x l) := by
  obtain ⟨u, v, h1, h2, h3, h4⟩ := insertDesc_split x l
  rw [h2]
  have hau : a ∈ u := by
    rw [h1] at ha hsort
    rcases List.mem_append.mp ha with h | h
    · exact h
    · exfalso
      rw [List.pairwise_append] at hsort
      obtain ⟨_, hv, _⟩ := hsort
      cases v with
      | nil => cases h
      | cons z zs =>
          have hz : z.2 < x.2 := h4 z rfl
          rcases List.mem_cons.mp h with h | h
          · rw [h] at hx
            omega
          · rw [List.pairwise_cons] at hv
            have := hv.1 a h
            omega
  exact List.Sublist.append (List.singleton_sublist.mpr hau)
    (List.Sublist.cons₂ x (List.nil_sublist v))

/-- Stability of the repeated insertion: a pair in arrival order whose
first component has the larger-or-equal count stays in that order.  The
disjunction tracks where the two elements currently live: both already
inserted, the first inserted and the second still pending, or both pending
in arrival order. -/
theorem foldl_insertDesc_stable (ts : List (String × Nat)) :
    ∀ (acc : List (String × Nat)),
      acc.Pairwise (fun p q => q.2 ≤ p.2) →
      ∀ a b : String × Nat, b.2 ≤ a.2 →
        (List.Sublist [a, b] acc ∨ (a ∈ acc ∧ b ∈ ts) ∨ List.Sublist [a, b] ts) →
        List.Sublist [a, b]
          (List.foldl (fun acc x => insertDesc x acc) acc ts) := by
  induction ts with
  | nil =>
      intro acc _ a b _ hsrc
      rcases hsrc with h | h | h
      · exact h
      · cases h.2
      · simp at h
  | cons x ts ih =>
      intro acc hsort a b hba hsrc
      rw [List.foldl_cons]
      apply ih (insertDesc x acc) (insertDesc_sorted x acc hsort) a b hba
      rcases hsrc with h | ⟨ha, hb⟩ | h
      · exact Or.inl (sublist_insertDesc x acc _ h)
      · rcases List.mem_cons.mp hb with hbx | hb
        · subst hbx
          exact Or.inl (pair_sublist_insertDesc b a acc hsort ha hba)
        · exact Or.inr (Or.inl ⟨mem_insertDesc x a acc ha, hb⟩)
      · cases h with
        | cons _ h2 => exact Or.inr (Or.inr h2)
        | cons₂ _ h2 =>
            exact Or.inr (Or.inl ⟨self_mem_insertDesc _ acc,
              List.singleton_sublist.mp h2⟩)

theorem mostCommon_stable (l : List (String × Nat)) (a b : String × Nat)
    (hba : b.2 ≤ a.2) (h : List.Sublist [a, b] l) :
    List.Sublist [a, b] (mostCommon l) := by
  unfold mostCommon
  exact foldl_insertDesc_stable l [] (by simp) a b hba (Or.inr (Or.inr h))

theorem mem_keys_of_hasKey (acc : List (String × Nat)) (s : String)
    (h : hasKey acc s = true) : s ∈ acc.map Prod.fst := by
  rw [hasKey_eq_isSome] at h
  cases hl : lookupCount acc s with
  | none => rw [hl] at h; cases h
  | some n =>
      exact List.mem_map.mpr ⟨(s, n), mem_of_lookupCount acc s n hl, rfl⟩

theorem keys_bump (acc : List (String × Nat)) (s : String) :
    (bump acc s).map Prod.fst = acc.map Prod.fst ∨
      (bump acc s).map Prod.fst = acc.map Prod.fst ++ [s] := by
  unfold bump
  by_cases hk : hasKey acc s = true
  · rw [if_pos hk]
    exact Or.inl (keys_map_bump acc s)
  · rw [if_neg hk]
    exact Or.inr (by rw [List.map_append]; rfl)

theorem keys_bump_not_mem (acc : List (String × Nat)) (s : String)
    (h : ¬ s ∈ acc.map Prod.fst) :
    (bump acc s).map Prod.fst = acc.map Prod.fst ++ [s] := by
  have hk : ¬ hasKey acc s = true := fun hc => h (mem_keys_of_hasKey acc s hc)
  unfold bump
  rw [if_neg hk, List.map_append]
  rfl

theorem mem_keys_bump (acc : List (String × Nat)) (s k : String)
    (h : k ∈ acc.map Prod.fst) : k ∈ (bump acc s).map Prod.fst := by
  rcases keys_bump acc s with hb | hb
  · rw [hb]; exact h
  · rw [hb]; exact List.mem_append.mpr (Or.inl h)

theorem not_mem_keys_bump (acc : List (String × Nat)) (s k : String)
    (hk : ¬ k ∈ acc.map Prod.fst) (hks : k ≠ s) :
    ¬ k ∈ (bump acc s).map Prod.fst := by
  rcases keys_bump acc s with hb | hb
  · rw [hb]; exact hk
  · rw [hb]
    intro hc
    rcases List.mem_append.mp hc with hc | hc
    · exact hk hc
    · exact hks (List.mem_singleton.mp hc)

/-- Keys only ever get appended by the counter, so key order is stable. -/
theorem keys_foldl_bump_append (ts : List String) :
    ∀ acc : List (String × Nat), ∃ ext : List String,
      (List.foldl bump acc ts).map Prod.fst = acc.map Prod.fst ++ ext := by
  induction ts with
  | nil => intro acc; exact ⟨[], by simp⟩
  | cons s ts ih =>
      intro acc
      rw [List.foldl_cons]
      obtain ⟨ext, hext⟩ := ih (bump acc s)
      rcases keys_bump acc s with hk | hk
      · exact ⟨ext, by rw [hext, hk]⟩
      · exact ⟨s :: ext, by rw [hext, hk, List.append_assoc]; rfl⟩

theorem keys_sublist_foldl_bump (ts : List String) (acc : List (String × Nat))
    (K : List String) (h : List.Sublist K (acc.map Prod.fst)) :
    List.Sublist K ((List.foldl bump acc ts).map Prod.fst) := by
  obtain ⟨ext, hext⟩ := keys_foldl_bump_append ts acc
  rw [hext]
  exact h.trans (List.sublist_append_left _ _)

/-- If `t` is already a key and `u` is not yet one, `u`'s key is appended
later, so `t` precedes `u` in the final key order. -/
theorem keys_pair_foldl_bump (ts : List String) :
    ∀ (acc : List (String × Nat)) (t u : String),
      t ∈ acc.map Prod.fst → ¬ u ∈ acc.map Prod.fst → u ∈ ts →
      List.Sublist [t, u] ((List.foldl bump acc ts).map Prod.fst) := by
  induction ts with
  | nil =>
      intro acc t u _ _ hu
      cases hu
  | cons s ts ih =>
      intro acc t u ht hu hmem
      rw [List.foldl_cons]
      by_cases hsu : s = u
      · subst hsu
        have hkeys := keys_bump_not_mem acc s hu
        apply keys_sublist_foldl_bump ts (bump acc s)
        rw [hkeys]
        exact List.Sublist.append (List.singleton_sublist.mpr ht)
          (List.Sublist.refl [s])
      · apply ih (bump acc s) t u (mem_keys_bump acc s t ht)
          (not_mem_keys_bump acc s u hu (fun hc => hsu hc.symm))
        rcases List.mem_cons.mp hmem with hc | hc
        · exact absurd hc.symm hsu
        · exact hc

theorem firstBefore_mem (t u : String) (ts : List String)
    (h : firstBefore t u ts = true) : t ∈ ts := by
  induction ts with
  | nil => cases h
  | cons s rest ih =>
      unfold firstBefore at h
      by_cases hst : s = t
      · rw [hst]
        exact List.mem_cons_self _ _
      · rw [if_neg hst] at h
        by_cases hsu : s = u
        · rw [if_pos hsu] at h
          cases h
        · rw [if_neg hsu] at h
          exact List.mem_cons_of_mem s (ih h)

/-- The counter lists keys in first-encounter order: if `t` is first
encountered before `u`, key `t` precedes key `u`. -/
theorem keys_firstBefore_foldl_bump (ts : List String) :
    ∀ (acc : List (String × Nat)) (t u : String),
      t ≠ u →
      ¬ t ∈ acc.map Prod.fst → ¬ u ∈ acc.map Prod.fst →
      firstBefore t u ts = true → u ∈ ts →
      List.Sublist [t, u] ((List.foldl bump acc ts).map Prod.fst) := by
  induction ts with
  | nil =>
      intro acc t u _ _ _ hfb _
      cases hfb
  | cons s ts ih =>
      intro acc t u htu ht hu hfb hmem
      rw [List.foldl_cons]
      unfold firstBefore at hfb
      by_cases hst : s = t
      · subst hst
        have hkeys := keys_bump_not_mem acc s ht
        apply keys_pair_foldl_bump ts (bump acc s) s u
        · rw [hkeys]
          exact List.mem_append.mpr (Or.inr (List.mem_singleton.mpr rfl))
        · rw [hkeys]
          intro hc
          rcases List.mem_append.mp hc with hc | hc
          · exact hu hc
          · exact htu (List.mem_singleton.mp hc).symm
        · rcases List.mem_cons.mp hmem with hc | hc
          · exact absurd hc.symm htu
          · exact hc
      · rw [if_neg hst] at hfb
        by_cases hsu : s = u
        · rw [if_pos hsu] at hfb
          cases hfb
        · rw [if_neg hsu] at hfb
          apply ih (bump acc s) t u htu
            (not_mem_keys_bump acc s t ht (fun hc => hst hc.symm))
            (not_mem_keys_bump acc s u hu (fun hc => hsu hc.symm))
            hfb
          rcases List.mem_cons.mp hmem with hc | hc
          · exact absurd hc.symm hsu
          · exact hc

theorem lookupCount_of_mem_nodup (l : List (String × Nat)) :
    ∀ (k : String) (n : Nat), (k, n) ∈ l → (l.map Prod.fst).Nodup →
      lookupCount l k = some n := by
  induction l with
  | nil =>
      intro k n h _
      cases h
  | cons p rest ih =>
      obtain ⟨q, v⟩ := p
      intro k n hmem hnd
      rw [List.map_cons, List.nodup_cons] at hnd
      obtain ⟨hq, hndr⟩ := hnd
      rw [lookupCount_cons]
      rcases List.mem_cons.mp hmem with h | h
      · injection h with h1 h2
        subst h1
        subst h2
        rw [if_pos rfl]
      · by_cases hqk : q = k
        · exfalso
          apply hq
          rw [hqk]
          exact List.mem_map.mpr ⟨(k, n), h, rfl⟩
        · rw [if_neg hqk]
          exact ih k n h hndr

/-- Lift a key-order fact to the full entries when keys are unique. -/
theorem pair_sublist_of_keys (l : List (String × Nat)) :
    ∀ (t u : String) (n m : Nat),
      (l.map Prod.fst).Nodup →
      List.Sublist [t, u] (l.map Prod.fst) →
      lookupCount l t = some n → lookupCount l u = some m →
      List.Sublist [(t, n), (u, m)] l := by
  induction l with
  | nil =>
      intro t u n m _ hs _ _
      simp at hs
  | cons p rest ih =>
      obtain ⟨k, v⟩ := p
      intro t u n m hnd hs hlt hlu
      rw [List.map_cons] at hs hnd
      rw [List.nodup_cons] at hnd
      obtain ⟨hknr, hndr⟩ := hnd
      cases hs with
      | cons _ h2 =>
          have hmt : t ∈ List.map Prod.fst rest :=
            List.singleton_sublist.mp
              ((List.Sublist.cons₂ t (List.nil_sublist [u])).trans h2)
          have htk : ¬ k = t := fun hc => hknr (hc ▸ hmt)
          have hmu : u ∈ List.map Prod.fst rest :=
            List.singleton_sublist.mp
              ((List.Sublist.cons t (List.Sublist.refl [u])).trans h2)
          have huk : ¬ k = u := fun hc => hknr (hc ▸ hmu)
          rw [lookupCount_cons, if_neg htk] at hlt
          rw [lookupCount_cons, if_neg huk] at hlu
          exact List.Sublist.cons (k, v) (ih t u n m hndr h2 hlt hlu)
      | cons₂ _ h2 =>
          rw [lookupCount_cons, if_pos rfl] at hlt
          have hv : v = n := Option.some.inj hlt
          subst hv
          have hmu : u ∈ List.map Prod.fst rest := List.singleton_sublist.mp h2
          have huk : ¬ k = u := fun hc => hknr (hc ▸ hmu)
          rw [lookupCount_cons, if_neg huk] at hlu
          exact List.Sublist.cons₂ (k, v)
            (List.singleton_sublist.mpr (mem_of_lookupCount rest u m hlu))

/-- Entries of the counter are exactly the encountered tones with their
occurrence counts. -/
theorem mem_counterItems_iff (ts : List String) (p : String × Nat) :
    p ∈ counterItems ts ↔ p.1 ∈ ts ∧ p.2 = ts.count p.1 := by
  obtain ⟨a, b⟩ := p
  constructor
  · intro hp
    have hlk := lookupCount_of_mem_nodup (counterItems ts) a b hp
      (nodupKeys_counterItems ts)
    by_cases hmem : a ∈ ts
    · rw [lookupCount_counterItems ts a hmem] at hlk
      exact ⟨hmem, (Option.some.inj hlk).symm⟩
    · exfalso
      unfold counterItems at hlk
      rw [lookupCount_foldl_bump ts [] a, if_neg hmem] at hlk
      cases hlk
  · rintro ⟨h1, h2⟩
    dsimp only at h1 h2
    subst h2
    exact mem_of_lookupCount (counterItems ts) a (ts.count a)
      (lookupCount_counterItems ts a h1)

/-! ### Claim C9 -/

/-- C9: popular_tones maps each distinct tone value, and nothing else, to
its occurrence count (keys are without repetition, an entry exists exactly
for each encountered tone, with the tone's count); entries are ordered by
descending count; and whenever two distinct tones both occur and the one
first encountered earlier has at least the count of the other — in
particular on a tie — its entry precedes the other's, so ties are broken
by first-encounter order.  On the spec's example, tones a, b, a, c, a, b
yield exactly a:3, b:2, c:1 in that order. -/
theorem c9_popular_tones (ds : List Draft) :
    (popularTones ds).Pairwise (fun a b => b.2 ≤ a.2) ∧
    ((popularTones ds).map Prod.fst).Nodup ∧
    (∀ t, t ∈ ds.map (fun d => d.tone) →
      (t, (ds.map (fun d => d.tone)).count t) ∈ popularTones ds) ∧
    (∀ p, p ∈ popularTones ds →
      p.1 ∈ ds.map (fun d => d.tone) ∧
      p.2 = (ds.map (fun d => d.tone)).count p.1) ∧
    (∀ t u, t ≠ u → u ∈ ds.map (fun d => d.tone) →
      firstBefore t u (ds.map (fun d => d.tone)) = true →
      (ds.map (fun d => d.tone)).count u ≤ (ds.map (fun d => d.tone)).count t →
      List.Sublist [(t, (ds.map (fun d => d.tone)).count t),
        (u, (ds.map (fun d => d.tone)).count u)] (popularTones ds)) ∧
    popularTones exToneDrafts = [("a", 3), ("b", 2), ("c", 1)] := by
  refine ⟨mostCommon_sorted _, ?_, ?_, ?_, ?_, by decide⟩
  · have hperm := mostCommon_perm (counterItems (ds.map (fun d => d.tone)))
    exact ((hperm.map Prod.fst).nodup_iff).mpr
      (nodupKeys_counterItems (ds.map (fun d => d.tone)))
  · intro t ht
    have hl := lookupCount_counterItems (ds.map (fun d => d.tone)) t ht
    have hmem := mem_of_lookupCount _ t _ hl
    exact (mostCommon_perm _).mem_iff.mpr hmem
  · intro p hp
    have hp2 : p ∈ mostCommon (counterItems (ds.map (fun d => d.tone))) := hp
    exact (mem_counterItems_iff (ds.map (fun d => d.tone)) p).mp
      ((mostCommon_perm (counterItems (ds.map (fun d => d.tone)))).mem_iff.mp hp2)
  · intro t u htu hu hfb hcc
    have ht : t ∈ ds.map (fun d => d.tone) := firstBefore_mem t u _ hfb
    have hkeys0 := keys_firstBefore_foldl_bump (ds.map (fun d => d.tone)) [] t u
      htu (by simp) (by simp) hfb hu
    have hkeys : List.Sublist [t, u]
        ((counterItems (ds.map (fun d => d.tone))).map Prod.fst) := hkeys0
    have hpair := pair_sublist_of_keys (counterItems (ds.map (fun d => d.tone)))
      t u _ _ (nodupKeys_counterItems _) hkeys
      (lookupCount_counterItems _ t ht) (lookupCount_counterItems _ u hu)
    exact mostCommon_stable _ _ _ hcc hpair

/-- Witness for C9: the tone "a" occurs 3 times in the example drafts and
popular_tones maps it to 3; in the tie example (tones x, y, y, x, both
counts 2) the tie-break clause places x before y, matching the computed
value [(x, 2), (y, 2)]. -/
theorem c9_witness :
    ("a" ∈ exToneDrafts.map (fun d => d.tone)) ∧
    ("a", (exToneDrafts.map (fun d => d.tone)).count "a") ∈
      popularTones exToneDrafts ∧
    popularTones exTieDrafts = [("x", 2), ("y", 2)] ∧
    List.Sublist [("x", (exTieDrafts.map (fun d => d.tone)).count "x"),
      ("y", (exTieDrafts.map (fun d => d.tone)).count "y")]
      (popularTones exTieDrafts) := by
  refine ⟨by decide, (c9_popular_tones exToneDrafts).2.2.1 "a" (by decide),
    by decide, ?_⟩
  exact (c9_popular_tones exTieDrafts).2.2.2.2.1 "x" "y" (by decide) (by decide)
    (by decide) (by decide)

end InstaMailer
